import Mathlib

/-!
Shallow embedding of the CT-lab repository: the attenuation-source hierarchy
(`attenuation_object.py`) and the projection grid (`projection.py`).
Python floats are idealised as an ordered field (instantiated at `ℚ` for
executable witnesses and at `ℝ` where integrals appear); numpy arrays are
lists of lists; numpy / Python indexing errors are modelled with `Option`;
exceptions raised during construction are modelled with `Except`.
-/

namespace CT

/-- Numpy/Python sequence indexing `l[i]` for a possibly negative integer
index: a negative index counts from the far end; an index out of the range
`[-len, len-1]` raises `IndexError`, modelled as `none`. -/
def pyIndex {β : Type} (l : List β) (i : ℤ) : Option β :=
  if 0 ≤ i then l[i.toNat]?
  else if 0 ≤ (l.length : ℤ) + i then l[((l.length : ℤ) + i).toNat]?
  else none

/-- Python `int()` applied to a float: truncation toward zero. -/
def pyInt {α : Type} [LinearOrderedField α] [FloorRing α] (q : α) : ℤ :=
  if 0 ≤ q then ⌊q⌋ else -⌊-q⌋

/-- Entry `(i, j)` of a 2D array, with default `0` (used only where the
surrounding proof guarantees the indices are in range). -/
def cell {α : Type} [Zero α] (d : List (List α)) (i j : ℕ) : α :=
  (d.getD i []).getD j 0

/-- A 2D array has `m` rows, each of length `n` (the shape `(m, n)` of the
numpy array `np.zeros((m, n))` and of anything of "the same shape"). -/
def Shaped {α : Type} (d : List (List α)) (m n : ℕ) : Prop :=
  d.length = m ∧ ∀ row ∈ d, row.length = n

/-- The `Projection` (src/projection.py): ranges, step counts, derived step
sizes, and the backing 2D `data` array. -/
structure Projection (α : Type) where
  theta_min : α
  theta_max : α
  theta_steps : ℤ
  theta_step_size : α
  xi_min : α
  xi_max : α
  xi_steps : ℤ
  xi_step_size : α
  data : List (List α)

/-- The `Projection.__init__`: orders each range by `min`/`max`, derives the step
sizes by division, and allocates the all-zero `data` array.  The Python code
performs no explicit validation: `theta_steps == 0` (resp. `xi_steps == 0`)
raises `ZeroDivisionError` at the corresponding division, and a negative step
count raises `ValueError` inside `np.zeros`; these exceptions are modelled as
`Except.error`, in the order Python would raise them. -/
def Projection.make {α : Type} [LinearOrderedField α] (theta_range : α × α)
    (theta_steps : ℤ) (xi_range : α × α) (xi_steps : ℤ) :
    Except String (Projection α) :=
  if theta_steps = 0 then .error "ZeroDivisionError: float division by zero"
  else if xi_steps = 0 then .error "ZeroDivisionError: float division by zero"
  else if theta_steps < 0 ∨ xi_steps < 0 then
    .error "ValueError: negative dimensions are not allowed"
  else .ok
    { theta_min := min theta_range.1 theta_range.2
      theta_max := max theta_range.1 theta_range.2
      theta_steps := theta_steps
      theta_step_size :=
        (max theta_range.1 theta_range.2 - min theta_range.1 theta_range.2) /
          (theta_steps : α)
      xi_min := min xi_range.1 xi_range.2
      xi_max := max xi_range.1 xi_range.2
      xi_steps := xi_steps
      xi_step_size :=
        (max xi_range.1 xi_range.2 - min xi_range.1 xi_range.2) /
          (xi_steps : α)
      data := List.replicate theta_steps.toNat
        (List.replicate xi_steps.toNat 0) }

/-- The `Projection.theta`: the value of theta at a step index. -/
def Projection.theta {α : Type} [LinearOrderedField α] (p : Projection α)
    (idx : ℤ) : α :=
  p.theta_min + (idx : α) * p.theta_step_size

/-- The `Projection.xi`: the value of xi at a step index. -/
def Projection.xi {α : Type} [LinearOrderedField α] (p : Projection α)
    (idx : ℤ) : α :=
  p.xi_min + (idx : α) * p.xi_step_size

/-- The `Projection.get_continuous_custom`: clamped, floor-indexed lookup on an
externally supplied array.  Mirrors the source literally: the fractional
column index is `(xi - xi_min) / xi_step_size`; below `0` it clamps to
column `0`, at or above `xi_steps` it clamps to column `-1` (numpy negative
indexing, i.e. the last column), otherwise Python `int()` truncation picks
the cell.  (A zero `xi_step_size` would raise `ZeroDivisionError` in Python;
the theorems below always assume a nonzero step size.) -/
def Projection.get_continuous_custom {α : Type} [LinearOrderedField α]
    [FloorRing α] (p : Projection α) (theta_idx : ℤ) (xi : α)
    (data : List (List α)) : Option α :=
  let xi_idx := (xi - p.xi_min) / p.xi_step_size
  if xi_idx < 0 then (pyIndex data theta_idx).bind fun row => pyIndex row 0
  else if (p.xi_steps : α) ≤ xi_idx then
    (pyIndex data theta_idx).bind fun row => pyIndex row (-1)
  else (pyIndex data theta_idx).bind fun row => pyIndex row (pyInt xi_idx)

/-- The `Projection.get_continuous`: delegates to `get_continuous_custom` on the
projection's own `data` array. -/
def Projection.get_continuous {α : Type} [LinearOrderedField α] [FloorRing α]
    (p : Projection α) (theta_idx : ℤ) (xi : α) : Option α :=
  p.get_continuous_custom theta_idx xi p.data

/-- Well-formedness every constructed `Projection` enjoys: `data` has shape
`(theta_steps, xi_steps)`. -/
def Projection.WF {α : Type} (p : Projection α) : Prop :=
  Shaped p.data p.theta_steps.toNat p.xi_steps.toNat

instance {α : Type} (d : List (List α)) (m n : ℕ) :
    Decidable (Shaped d m n) := by
  unfold Shaped
  infer_instance

instance {α : Type} (p : Projection α) : Decidable p.WF := by
  unfold Projection.WF
  infer_instance

/-- A Boolean success test for `Except`. -/
def exceptOk {ε β : Type} : Except ε β → Bool
  | .ok _ => true
  | .error _ => false

/-- The `AttenuationObject` (src/attenuation_object.py): the abstract capability
is a pointwise attenuation function `ℝ² → ℝ`; each concrete variant below
supplies its own `attenuation` and is packed into this record where
polymorphism is needed. -/
structure AttenuationObject where
  attenuation : ℝ → ℝ → ℝ

/-- The `AttenuationObject.project_attenuation`: the line integral of
`attenuation` over `eta ∈ eta_range`, under the coordinate transform
`x = xi·cos θ + eta·sin θ`, `y = eta·cos θ − xi·sin θ`.  The adaptive
quadrature `scipy.integrate.quad(integrand, eta_range[0], eta_range[1])` is
idealised as the exact oriented integral from `eta_range.1` to
`eta_range.2`. -/
noncomputable def AttenuationObject.project_attenuation
    (o : AttenuationObject) (theta xi : ℝ) (eta_range : ℝ × ℝ) : ℝ :=
  ∫ eta in eta_range.1..eta_range.2,
    o.attenuation (xi * Real.cos theta + eta * Real.sin theta)
      (eta * Real.cos theta - xi * Real.sin theta)

/-- The `Rectangle` (fields after `__init__`): bounds normalised by `min`/`max`
and the scalar attenuation factor. -/
structure Rectangle where
  x1 : ℝ
  x2 : ℝ
  y1 : ℝ
  y2 : ℝ
  attenuation_factor : ℝ

/-- The `Rectangle.__init__`: stores `min`/`max`-normalised bounds. -/
def Rectangle.make (x1 x2 y1 y2 attenuation_factor : ℝ) : Rectangle :=
  { x1 := min x1 x2, x2 := max x1 x2, y1 := min y1 y2, y2 := max y1 y2
    attenuation_factor := attenuation_factor }

/-- The `Rectangle.attenuation`: the factor inside the closed box, else `0`. -/
noncomputable def Rectangle.attenuation (r : Rectangle) (x y : ℝ) : ℝ :=
  if r.x1 ≤ x ∧ x ≤ r.x2 ∧ r.y1 ≤ y ∧ y ≤ r.y2 then r.attenuation_factor
  else 0

/-- The `Rectangle` used through the abstract `AttenuationObject` capability. -/
noncomputable def Rectangle.toObject (r : Rectangle) : AttenuationObject :=
  ⟨r.attenuation⟩

/-- The `Circle` (fields after `__init__`): centre, radius stored as `abs r`,
and the scalar attenuation factor. -/
structure Circle where
  x0 : ℝ
  y0 : ℝ
  r : ℝ
  attenuation_factor : ℝ

/-- The `Circle.__init__`. -/
def Circle.make (x0 y0 r attenuation_factor : ℝ) : Circle :=
  { x0 := x0, y0 := y0, r := |r|, attenuation_factor := attenuation_factor }

/-- The `Circle.attenuation`: the factor when
`sqrt((x-x0)² + (y-y0)²) ≤ r`, else `0`. -/
noncomputable def Circle.attenuation (c : Circle) (x y : ℝ) : ℝ :=
  if Real.sqrt ((x - c.x0) ^ 2 + (y - c.y0) ^ 2) ≤ c.r then
    c.attenuation_factor
  else 0

/-- The `Circle` used through the abstract `AttenuationObject` capability. -/
noncomputable def Circle.toObject (c : Circle) : AttenuationObject :=
  ⟨c.attenuation⟩

/-- The `ObjectCollection` (src/attenuation_object.py): an ordered list of
member sources.  `append` checks `isinstance(obj, AttenuationObject)`; in
this typed embedding a member is an `AttenuationObject` by construction. -/
structure ObjectCollection where
  objects : List AttenuationObject

/-- The `ObjectCollection.attenuation`: the loop `attenuation += obj.attenuation`
over the members, starting from `0`. -/
noncomputable def ObjectCollection.attenuation (c : ObjectCollection)
    (x y : ℝ) : ℝ :=
  c.objects.foldl (fun acc obj => acc + obj.attenuation x y) 0

/-- The `ObjectCollection` used through the abstract capability. -/
noncomputable def ObjectCollection.toObject (c : ObjectCollection) :
    AttenuationObject :=
  ⟨c.attenuation⟩

/-- The `Projection.add_object`: for every `(theta_idx, xi_idx)` in
`range(theta_steps) × range(xi_steps)`, adds
`obj.project_attenuation(theta(theta_idx), xi(xi_idx), eta_range)` into
`data[theta_idx, xi_idx]`.  The in-place numpy update is modelled
functionally; a constructed grid's `data` always has exactly this shape, so
rebuilding the array cell by cell coincides with the in-place update. -/
noncomputable def Projection.add_object (p : Projection ℝ)
    (obj : AttenuationObject) (eta_range : ℝ × ℝ) : Projection ℝ :=
  { p with
    data := (List.range p.theta_steps.toNat).map fun theta_idx =>
      (List.range p.xi_steps.toNat).map fun xi_idx =>
        cell p.data theta_idx xi_idx +
          obj.project_attenuation (p.theta theta_idx) (p.xi xi_idx)
            eta_range }

/-- Modelled from the spec: `back_project` in src/projection.py is
unparseable (the two `for` statements lack colons, the body calls an unbound
free function and an unbound `theta`, and `matrix` is never returned), so
the reconstruction routine is modelled from the spec contract of §4.2: the
map from a continuous angle back to its nearest discrete row,
`thetaIndexFor(theta)`. -/
noncomputable def Projection.thetaIndexFor (p : Projection ℝ) (theta : ℝ) :
    ℤ :=
  round ((theta - p.theta_min) / p.theta_step_size)

/-- Modelled from the spec: `back_project` in src/projection.py is
unparseable, so the routine is modelled from the spec contract of §4.2: a
square array of side `xi_steps` whose pixel `(x, y)` is the quadrature over
`theta ∈ [0, π]` of `lookup(thetaIndexFor(theta), x·cos θ + y·sin θ)` (the
clamped lookup on the sinogram; a lookup that would raise in Python is read
as `0` through `Option.getD`, which the contract's index regime never
hits). -/
noncomputable def Projection.back_project (p : Projection ℝ) :
    List (List ℝ) :=
  (List.range p.xi_steps.toNat).map fun (y : ℕ) =>
    (List.range p.xi_steps.toNat).map fun (x : ℕ) =>
      ∫ theta in (0:ℝ)..Real.pi,
        (p.get_continuous (p.thetaIndexFor theta)
          ((x : ℝ) * Real.cos theta + (y : ℝ) * Real.sin theta)).getD 0

section IndexLemmas

variable {β : Type}

theorem pyIndex_of_nonneg (l : List β) (i : ℤ) (h0 : 0 ≤ i) :
    pyIndex l i = l[i.toNat]? := by
  simp [pyIndex, h0]

theorem pyIndex_of_neg (l : List β) (i : ℤ) (h0 : i < 0)
    (h1 : -(l.length : ℤ) ≤ i) :
    pyIndex l i = l[((l.length : ℤ) + i).toNat]? := by
  have : ¬ (0 ≤ i) := not_le.mpr h0
  have h2 : 0 ≤ (l.length : ℤ) + i := by omega
  simp [pyIndex, this, h2]

theorem pyIndex_eq_some (l : List β) [Zero β] (i : ℤ) (h0 : 0 ≤ i)
    (h1 : i < (l.length : ℤ)) :
    ∃ v, pyIndex l i = some v ∧ l.getD i.toNat 0 = v := by
  have hlt : i.toNat < l.length := by omega
  refine ⟨l[i.toNat], ?_, ?_⟩
  · rw [pyIndex_of_nonneg l i h0]
    exact List.getElem?_eq_getElem hlt
  · simp [List.getD_eq_getElem?_getD, List.getElem?_eq_getElem hlt]

end IndexLemmas

/-- Claim C2 (counterexample): a `Projection` constructed with a degenerate
equal-bound theta range `(0, 0)` and positive step counts is accepted — it
does not fail with a construction-time error — and its `theta_step_size` is
`0`, not strictly positive. -/
theorem make_accepts_degenerate_range :
    exceptOk (Projection.make ((0:ℚ), 0) 5 ((-2:ℚ), 2) 5) = true ∧
      (Projection.make ((0:ℚ), 0) 5 ((-2:ℚ), 2) 5).toOption.map
        Projection.theta_step_size = some 0 := by
  constructor
  · decide
  · norm_num [Projection.make, Except.toOption]

/-- Claim C2 (amended): constructing with zero or negative `theta_steps` or
`xi_steps` always fails at construction time (`ZeroDivisionError` at the
step-size division for zero, `ValueError` from `np.zeros` for negative); but
with positive step counts construction always succeeds, the step sizes are
exactly `(max - min) / steps` of the given ranges, and a degenerate
equal-bound range therefore yields step size `0` — successfully constructed
grids need not have strictly positive step sizes. -/
theorem make_validation {α : Type} [LinearOrderedField α] (tr xr : α × α)
    (ts xs : ℤ) :
    (ts ≤ 0 ∨ xs ≤ 0 → exceptOk (Projection.make tr ts xr xs) = false) ∧
    (0 < ts → 0 < xs →
      Projection.make tr ts xr xs = .ok
        { theta_min := min tr.1 tr.2, theta_max := max tr.1 tr.2
          theta_steps := ts
          theta_step_size := (max tr.1 tr.2 - min tr.1 tr.2) / (ts : α)
          xi_min := min xr.1 xr.2, xi_max := max xr.1 xr.2
          xi_steps := xs
          xi_step_size := (max xr.1 xr.2 - min xr.1 xr.2) / (xs : α)
          data := List.replicate ts.toNat (List.replicate xs.toNat 0) } ∧
      (tr.1 = tr.2 → (max tr.1 tr.2 - min tr.1 tr.2) / (ts : α) = 0)) := by
  constructor
  · intro h
    rcases eq_or_ne ts 0 with hts | hts
    · simp [Projection.make, hts, exceptOk]
    · rcases eq_or_ne xs 0 with hxs | hxs
      · simp [Projection.make, hts, hxs, exceptOk]
      · have : ts < 0 ∨ xs < 0 := by omega
        simp [Projection.make, hts, hxs, this, exceptOk]
  · intro hts hxs
    have h1 : ts ≠ 0 := by omega
    have h2 : xs ≠ 0 := by omega
    have h3 : ¬ (ts < 0 ∨ xs < 0) := by omega
    refine ⟨by simp [Projection.make, h1, h2, h3], ?_⟩
    intro h
    simp [h]

/-- Witness for `make_validation` at concrete inputs. -/
theorem make_validation_witness :
    ((-3 : ℤ) ≤ 0 ∨ (2 : ℤ) ≤ 0) ∧
      exceptOk (Projection.make ((0:ℚ), 1) (-3) ((0:ℚ), 1) 2) = false ∧
      ((0:ℚ) = 0 →
        (max (0:ℚ) 0 - min (0:ℚ) 0) / ((5 : ℤ) : ℚ) = 0) := by
  refine ⟨Or.inl (by decide), ?_, ?_⟩
  · exact (make_validation ((0:ℚ), 1) ((0:ℚ), 1) (-3) 2).1
      (Or.inl (by decide))
  · exact ((make_validation ((0:ℚ), 0) ((-2:ℚ), 2) 5 5).2 (by decide)
      (by decide)).2

section LookupLemmas

variable {α : Type} [LinearOrderedField α] [FloorRing α]

/-- Case analysis of `get_continuous_custom` on an array of the grid's
shape, for a valid row index and a positive derived step size. -/
theorem lookup_cases (p : Projection α) (ext : List (List α)) (i : ℤ)
    (xi : α)
    (hstep : p.xi_step_size = (p.xi_max - p.xi_min) / (p.xi_steps : α))
    (hsteps : 0 < p.xi_steps) (hrange : p.xi_min < p.xi_max)
    (hshape : Shaped ext p.theta_steps.toNat p.xi_steps.toNat)
    (hi0 : 0 ≤ i) (hi1 : i < p.theta_steps) :
    (xi < p.xi_min →
      p.get_continuous_custom i xi ext = some (cell ext i.toNat 0)) ∧
    (p.xi_max ≤ xi →
      p.get_continuous_custom i xi ext =
        some (cell ext i.toNat (p.xi_steps.toNat - 1))) ∧
    (p.xi_min ≤ xi → xi < p.xi_max →
      p.get_continuous_custom i xi ext =
        some (cell ext i.toNat (⌊(xi - p.xi_min) / p.xi_step_size⌋).toNat)) := by
  have hstepsR : (0:α) < (p.xi_steps : α) := by exact_mod_cast hsteps
  have hspos : (0:α) < p.xi_step_size := by
    rw [hstep]
    exact div_pos (sub_pos.mpr hrange) hstepsR
  have hmul : (p.xi_steps : α) * p.xi_step_size = p.xi_max - p.xi_min := by
    rw [hstep]
    exact mul_div_cancel₀ _ (ne_of_gt hstepsR)
  have hrowlt : i.toNat < ext.length := by
    have h := hshape.1
    omega
  have hrow : pyIndex ext i = some ext[i.toNat] := by
    rw [pyIndex_of_nonneg _ _ hi0]
    exact List.getElem?_eq_getElem hrowlt
  have hrowlen : (ext[i.toNat]).length = p.xi_steps.toNat :=
    hshape.2 _ (List.getElem_mem hrowlt)
  have hrowpos : 0 < (ext[i.toNat]).length := by omega
  have hcell : ∀ j, j < (ext[i.toNat]).length →
      (ext[i.toNat])[j]? = some (cell ext i.toNat j) := by
    intro j hj
    rw [List.getElem?_eq_getElem hj]
    unfold cell
    rw [List.getD_eq_getElem ext [] hrowlt, List.getD_eq_getElem _ 0 hj]
  refine ⟨?_, ?_, ?_⟩
  · intro hxi
    have hneg : (xi - p.xi_min) / p.xi_step_size < 0 :=
      div_neg_of_neg_of_pos (sub_neg.mpr hxi) hspos
    unfold Projection.get_continuous_custom
    rw [if_pos hneg, hrow, Option.some_bind, pyIndex_of_nonneg _ _ le_rfl]
    exact hcell 0 hrowpos
  · intro hxi
    have hge : (p.xi_steps : α) ≤ (xi - p.xi_min) / p.xi_step_size := by
      rw [le_div_iff₀ hspos, hmul]
      linarith
    have hnn : ¬ ((xi - p.xi_min) / p.xi_step_size < 0) := by
      push_neg
      exact le_trans (le_of_lt hstepsR) hge
    unfold Projection.get_continuous_custom
    rw [if_neg hnn, if_pos hge, hrow, Option.some_bind,
      pyIndex_of_neg _ _ (by omega) (by omega)]
    have hidx : (((ext[i.toNat]).length : ℤ) + -1).toNat =
        p.xi_steps.toNat - 1 := by omega
    rw [hidx]
    exact hcell _ (by omega)
  · intro hlo hhi
    have h0 : (0:α) ≤ (xi - p.xi_min) / p.xi_step_size :=
      div_nonneg (sub_nonneg.mpr hlo) (le_of_lt hspos)
    have hlt : (xi - p.xi_min) / p.xi_step_size < (p.xi_steps : α) := by
      rw [div_lt_iff₀ hspos, hmul]
      linarith
    have hnn : ¬ ((xi - p.xi_min) / p.xi_step_size < 0) := not_lt.mpr h0
    have hnu : ¬ ((p.xi_steps : α) ≤ (xi - p.xi_min) / p.xi_step_size) :=
      not_le.mpr hlt
    unfold Projection.get_continuous_custom
    rw [if_neg hnn, if_neg hnu, hrow, Option.some_bind]
    have hpy : pyInt ((xi - p.xi_min) / p.xi_step_size) =
        ⌊(xi - p.xi_min) / p.xi_step_size⌋ := by
      unfold pyInt
      rw [if_pos h0]
    have hf0 : 0 ≤ ⌊(xi - p.xi_min) / p.xi_step_size⌋ :=
      Int.floor_nonneg.mpr h0
    have hflt : ⌊(xi - p.xi_min) / p.xi_step_size⌋ < p.xi_steps :=
      Int.floor_lt.mpr hlt
    rw [hpy, pyIndex_of_nonneg _ _ hf0]
    exact hcell _ (by omega)

/-- Claim C5: on a grid with positive step counts and a non-degenerate xi
range (so the derived `xi_step_size` is positive), for every row index in
`[0, theta_steps)` and every `xi`: `get_continuous` returns
`data[theta_idx][0]` when `xi < xi_min`, `data[theta_idx][xi_steps-1]` when
`xi ≥ xi_max`, and otherwise the floor-indexed cell
`data[theta_idx][⌊(xi - xi_min)/xi_step_size⌋]`; `get_continuous_custom`
applies the identical clamp/floor policy to any externally supplied array of
the same shape; and `get_continuous` coincides with `get_continuous_custom`
on the grid's own `data`. -/
theorem get_continuous_clamp_floor (p : Projection α) (ext : List (List α))
    (i : ℤ) (xi : α)
    (hstep : p.xi_step_size = (p.xi_max - p.xi_min) / (p.xi_steps : α))
    (hsteps : 0 < p.xi_steps) (hrange : p.xi_min < p.xi_max) (hWF : p.WF)
    (hshape : Shaped ext p.theta_steps.toNat p.xi_steps.toNat)
    (hi0 : 0 ≤ i) (hi1 : i < p.theta_steps) :
    (p.get_continuous i xi = p.get_continuous_custom i xi p.data) ∧
    (xi < p.xi_min →
      p.get_continuous i xi = some (cell p.data i.toNat 0) ∧
      p.get_continuous_custom i xi ext = some (cell ext i.toNat 0)) ∧
    (p.xi_max ≤ xi →
      p.get_continuous i xi =
        some (cell p.data i.toNat (p.xi_steps.toNat - 1)) ∧
      p.get_continuous_custom i xi ext =
        some (cell ext i.toNat (p.xi_steps.toNat - 1))) ∧
    (p.xi_min ≤ xi → xi < p.xi_max →
      p.get_continuous i xi =
        some (cell p.data i.toNat
          (⌊(xi - p.xi_min) / p.xi_step_size⌋).toNat) ∧
      p.get_continuous_custom i xi ext =
        some (cell ext i.toNat
          (⌊(xi - p.xi_min) / p.xi_step_size⌋).toNat)) := by
  have hext := lookup_cases p ext i xi hstep hsteps hrange hshape hi0 hi1
  have hown := lookup_cases p p.data i xi hstep hsteps hrange hWF hi0 hi1
  refine ⟨rfl, ?_, ?_, ?_⟩
  · intro h
    exact ⟨hown.1 h, hext.1 h⟩
  · intro h
    exact ⟨hown.2.1 h, hext.2.1 h⟩
  · intro h1 h2
    exact ⟨hown.2.2 h1 h2, hext.2.2 h1 h2⟩

/-- Witness for `get_continuous_clamp_floor` on a concrete 2×4 grid over
`[-2, 2]` (step size `1`): at `xi = 3/2` the fractional index is `3.5`, so
the clamped lookup on the external array returns its cell `(1, 3) = 23`. -/
theorem get_continuous_clamp_floor_witness :
    Projection.get_continuous_custom
      (⟨0, 1, 2, 1/2, -2, 2, 4, 1,
        [[0, 0, 0, 0], [0, 0, 0, 0]]⟩ : Projection ℚ) 1 (3/2)
      [[10, 11, 12, 13], [20, 21, 22, 23]] = some 23 := by
  have h := (get_continuous_clamp_floor
    (⟨0, 1, 2, 1/2, -2, 2, 4, 1,
      [[0, 0, 0, 0], [0, 0, 0, 0]]⟩ : Projection ℚ)
    [[10, 11, 12, 13], [20, 21, 22, 23]] 1 (3/2)
    (by norm_num) (by decide) (by norm_num) (by decide) (by decide)
    (by decide) (by decide)).2.2.2 (by norm_num) (by norm_num)
  have h1 : (((3:ℚ)/2) - (-2)) / 1 = 7/2 := by norm_num
  have h2 : ⌊(7/2 : ℚ)⌋ = 3 := by norm_num
  rw [h1, h2] at h
  simpa [cell] using h.2

/-- Claim C10: `get_continuous` performs no validation of the angle index.
On a well-formed grid with positive `xi_steps` and positive `xi_step_size`
it is total — never an indexing error — for every `theta_idx` in
`[0, theta_steps)` and every `xi`; and for a negative `theta_idx` in
`[-theta_steps, -1]` it silently returns the value of row
`theta_steps + theta_idx` (numpy negative-index aliasing) instead of
failing. -/
theorem get_continuous_no_angle_validation (p : Projection α) (i : ℤ)
    (xi : α) (hWF : p.WF) (hstep : 0 < p.xi_step_size)
    (hsteps : 0 < p.xi_steps) :
    (0 ≤ i → i < p.theta_steps →
      (p.get_continuous i xi).isSome = true) ∧
    (-p.theta_steps ≤ i → i < 0 →
      p.get_continuous i xi = p.get_continuous (p.theta_steps + i) xi) := by
  constructor
  · intro hi0 hi1
    have hrowlt : i.toNat < p.data.length := by
      have h := hWF.1
      omega
    have hrow : pyIndex p.data i = some p.data[i.toNat] := by
      rw [pyIndex_of_nonneg _ _ hi0]
      exact List.getElem?_eq_getElem hrowlt
    have hrowlen : (p.data[i.toNat]).length = p.xi_steps.toNat :=
      hWF.2 _ (List.getElem_mem hrowlt)
    have hrowpos : 0 < (p.data[i.toNat]).length := by omega
    unfold Projection.get_continuous Projection.get_continuous_custom
    by_cases h1 : (xi - p.xi_min) / p.xi_step_size < 0
    · rw [if_pos h1, hrow, Option.some_bind, pyIndex_of_nonneg _ _ le_rfl,
        Int.toNat_zero, List.getElem?_eq_getElem hrowpos]
      rfl
    · by_cases h2 : (p.xi_steps : α) ≤ (xi - p.xi_min) / p.xi_step_size
      · rw [if_neg h1, if_pos h2, hrow, Option.some_bind,
          pyIndex_of_neg _ _ (by omega) (by omega),
          List.getElem?_eq_getElem (by omega)]
        rfl
      · have h0 : (0:α) ≤ (xi - p.xi_min) / p.xi_step_size := not_lt.mp h1
        have hpy : pyInt ((xi - p.xi_min) / p.xi_step_size) =
            ⌊(xi - p.xi_min) / p.xi_step_size⌋ := by
          unfold pyInt
          rw [if_pos h0]
        have hf0 : 0 ≤ ⌊(xi - p.xi_min) / p.xi_step_size⌋ :=
          Int.floor_nonneg.mpr h0
        have hflt : ⌊(xi - p.xi_min) / p.xi_step_size⌋ < p.xi_steps :=
          Int.floor_lt.mpr (not_le.mp h2)
        rw [if_neg h1, if_neg h2, hrow, Option.some_bind, hpy,
          pyIndex_of_nonneg _ _ hf0,
          List.getElem?_eq_getElem (by omega)]
        rfl
  · intro hi0 hi1
    have hlen : (p.data.length : ℤ) = p.theta_steps := by
      have h := hWF.1
      omega
    have halias : pyIndex p.data i = pyIndex p.data (p.theta_steps + i) := by
      rw [pyIndex_of_neg _ _ hi1 (by omega),
        pyIndex_of_nonneg _ _ (by omega)]
      congr 1
      omega
    unfold Projection.get_continuous Projection.get_continuous_custom
    rw [halias]

/-- Witness for `get_continuous_no_angle_validation` on a concrete 2×4
grid: row index `-1` silently aliases to row `1`, and a nonnegative row
index never errors. -/
theorem get_continuous_no_angle_validation_witness :
    ((Projection.get_continuous
        (⟨0, 1, 2, 1/2, -2, 2, 4, 1,
          [[10, 11, 12, 13], [20, 21, 22, 23]]⟩ : Projection ℚ)
        0 (7/2)).isSome = true) ∧
    Projection.get_continuous
      (⟨0, 1, 2, 1/2, -2, 2, 4, 1,
        [[10, 11, 12, 13], [20, 21, 22, 23]]⟩ : Projection ℚ) (-1) (7/2) =
    Projection.get_continuous
      (⟨0, 1, 2, 1/2, -2, 2, 4, 1,
        [[10, 11, 12, 13], [20, 21, 22, 23]]⟩ : Projection ℚ) (2 + -1)
      (7/2) := by
  constructor
  · exact (get_continuous_no_angle_validation
      (⟨0, 1, 2, 1/2, -2, 2, 4, 1,
        [[10, 11, 12, 13], [20, 21, 22, 23]]⟩ : Projection ℚ) 0 (7/2)
      (by decide) (by norm_num) (by decide)).1 (by decide) (by decide)
  · exact (get_continuous_no_angle_validation
      (⟨0, 1, 2, 1/2, -2, 2, 4, 1,
        [[10, 11, 12, 13], [20, 21, 22, 23]]⟩ : Projection ℚ) (-1) (7/2)
      (by decide) (by norm_num) (by decide)).2 (by decide) (by decide)

end LookupLemmas

section AddObjectLemmas

/-- The value of one cell after `add_object`: the old value plus the line
integral of the object at that cell's grid coordinates. -/
theorem add_object_cell (p : Projection ℝ) (obj : AttenuationObject)
    (er : ℝ × ℝ) (i j : ℕ) (hi : i < p.theta_steps.toNat)
    (hj : j < p.xi_steps.toNat) :
    cell (p.add_object obj er).data i j =
      cell p.data i j +
        obj.project_attenuation (p.theta i) (p.xi j) er := by
  simp [Projection.add_object, cell, List.getD_eq_getElem?_getD,
    List.getElem?_map, List.getElem?_range, hi, hj, Option.map_some',
    Option.getD_some]

/-- The `add_object` always yields a well-formed grid: the rebuilt `data` has
shape `(theta_steps, xi_steps)`. -/
theorem add_object_WF (p : Projection ℝ) (obj : AttenuationObject)
    (er : ℝ × ℝ) : (p.add_object obj er).WF := by
  constructor
  · simp [Projection.add_object]
  · intro row hrow
    simp only [Projection.add_object, List.mem_map, List.mem_range]
      at hrow
    obtain ⟨ti, -, rfl⟩ := hrow
    simp [Projection.add_object]

/-- A 2D array all of whose rows have length `n` maps to a constant list
of lengths. -/
theorem map_length_eq_replicate {α : Type} (d : List (List α)) (n : ℕ)
    (h : ∀ row ∈ d, row.length = n) :
    d.map List.length = List.replicate d.length n := by
  induction d with
  | nil => simp
  | cons r t ih =>
    simp only [List.map_cons, List.length_cons, List.replicate_succ]
    refine congrArg₂ _ (h r (by simp)) ?_
    exact ih fun row hr => h row (by simp [hr])

/-- Claim C9: `add_object` mutates only the entries of `data`: all eight
grid parameters are unchanged, and on a well-formed grid the shape of
`data` (row count and every row length) is unchanged as well. -/
theorem add_object_frame (p : Projection ℝ) (obj : AttenuationObject)
    (er : ℝ × ℝ) (hWF : p.WF) :
    (p.add_object obj er).theta_min = p.theta_min ∧
    (p.add_object obj er).theta_max = p.theta_max ∧
    (p.add_object obj er).theta_steps = p.theta_steps ∧
    (p.add_object obj er).theta_step_size = p.theta_step_size ∧
    (p.add_object obj er).xi_min = p.xi_min ∧
    (p.add_object obj er).xi_max = p.xi_max ∧
    (p.add_object obj er).xi_steps = p.xi_steps ∧
    (p.add_object obj er).xi_step_size = p.xi_step_size ∧
    (p.add_object obj er).data.length = p.data.length ∧
    (p.add_object obj er).data.map List.length =
      p.data.map List.length := by
  refine ⟨rfl, rfl, rfl, rfl, rfl, rfl, rfl, rfl, ?_, ?_⟩
  · simp [Projection.add_object, hWF.1]
  · rw [map_length_eq_replicate _ p.xi_steps.toNat hWF.2,
      map_length_eq_replicate _ p.xi_steps.toNat (add_object_WF p obj er).2,
      (add_object_WF p obj er).1, hWF.1]
    rfl

/-- Witness for `add_object_frame` on a concrete well-formed 1×2 grid and
a constant-density object. -/
theorem add_object_frame_witness :
    ((⟨0, 1, 1, 1, 0, 1, 2, 1/2, [[0, 0]]⟩ : Projection ℝ).add_object
        ⟨fun _ _ => 1⟩ (0, 1)).xi_steps = 2 ∧
    ((⟨0, 1, 1, 1, 0, 1, 2, 1/2, [[0, 0]]⟩ : Projection ℝ).add_object
        ⟨fun _ _ => 1⟩ (0, 1)).data.map List.length =
      ([[0, 0]] : List (List ℝ)).map List.length := by
  have h := add_object_frame (⟨0, 1, 1, 1, 0, 1, 2, 1/2, [[0, 0]]⟩ :
    Projection ℝ) ⟨fun _ _ => 1⟩ (0, 1) (by decide)
  exact ⟨h.2.2.2.2.2.2.1, h.2.2.2.2.2.2.2.2.2⟩

/-- Claim C6: `add_object` accumulates additively: on a well-formed grid
one call adds the object's line integral at
`(theta(theta_idx), xi(xi_idx))` into `data[theta_idx][xi_idx]` for every
grid cell without overwriting prior contents; consequently, starting from
the all-zero state, calling it twice with the same object and range gives
every cell exactly double its value after one call. -/
theorem add_object_accumulates (p : Projection ℝ)
    (obj : AttenuationObject) (er : ℝ × ℝ) (hWF : p.WF) :
    (∀ i j, i < p.theta_steps.toNat → j < p.xi_steps.toNat →
      cell (p.add_object obj er).data i j =
        cell p.data i j +
          obj.project_attenuation (p.theta i) (p.xi j) er) ∧
    ((∀ i j, cell p.data i j = 0) →
      ∀ i j, i < p.theta_steps.toNat → j < p.xi_steps.toNat →
        cell ((p.add_object obj er).add_object obj er).data i j =
          2 * cell (p.add_object obj er).data i j) := by
  refine ⟨fun i j hi hj => add_object_cell p obj er i j hi hj, ?_⟩
  intro hzero i j hi hj
  have h1 := add_object_cell p obj er i j hi hj
  have h2 := add_object_cell (p.add_object obj er) obj er i j hi hj
  have hth : (p.add_object obj er).theta (i : ℤ) = p.theta (i : ℤ) := rfl
  have hxi : (p.add_object obj er).xi (j : ℤ) = p.xi (j : ℤ) := rfl
  rw [hth, hxi] at h2
  rw [h2, h1, hzero i j]
  ring

/-- Witness for `add_object_accumulates` on a concrete all-zero 1×1 grid:
the doubling law at cell `(0, 0)`. -/
theorem add_object_accumulates_witness :
    cell (((⟨0, 1, 1, 1, 0, 1, 1, 1, [[0]]⟩ : Projection ℝ).add_object
        ⟨fun _ _ => 1⟩ (0, 1)).add_object ⟨fun _ _ => 1⟩ (0, 1)).data 0 0 =
      2 * cell ((⟨0, 1, 1, 1, 0, 1, 1, 1, [[0]]⟩ : Projection ℝ).add_object
        ⟨fun _ _ => 1⟩ (0, 1)).data 0 0 := by
  refine (add_object_accumulates (⟨0, 1, 1, 1, 0, 1, 1, 1, [[0]]⟩ :
    Projection ℝ) ⟨fun _ _ => 1⟩ (0, 1) (by decide)).2 ?_ 0 0 (by decide)
    (by decide)
  intro i j
  match i, j with
  | 0, 0 => simp [cell]
  | 0, Nat.succ j => simp [cell]
  | Nat.succ i, j => simp [cell]

end AddObjectLemmas

section AttenuationLemmas

/-- The `Rectangle.attenuation` after construction, with the normalised bounds
spelled out. -/
theorem Rectangle.attenuation_make (x1 x2 y1 y2 f x y : ℝ) :
    (Rectangle.make x1 x2 y1 y2 f).attenuation x y =
      if min x1 x2 ≤ x ∧ x ≤ max x1 x2 ∧ min y1 y2 ≤ y ∧ y ≤ max y1 y2
      then f else 0 := rfl

/-- The accumulation loop of `ObjectCollection.attenuation` computes the
sum of the members' attenuations. -/
theorem ObjectCollection.attenuation_eq_sum (c : ObjectCollection)
    (x y : ℝ) :
    c.attenuation x y = (c.objects.map fun o => o.attenuation x y).sum := by
  unfold ObjectCollection.attenuation
  rw [List.sum_eq_foldl, List.foldl_map]

/-- Claim C8: a collection's density at any point is the sum of its
members' densities there, and this value is invariant under any permutation
of the members. -/
theorem collection_density_sum_perm (c : ObjectCollection) (x y : ℝ) :
    c.attenuation x y = (c.objects.map fun o => o.attenuation x y).sum ∧
    ∀ d : ObjectCollection, d.objects.Perm c.objects →
      d.attenuation x y = c.attenuation x y := by
  refine ⟨ObjectCollection.attenuation_eq_sum c x y, ?_⟩
  intro d hperm
  rw [ObjectCollection.attenuation_eq_sum, ObjectCollection.attenuation_eq_sum]
  exact (hperm.map _).sum_eq

/-- Witness for `collection_density_sum_perm`: two constant sources in
either order give the same total density at the origin. -/
theorem collection_density_sum_perm_witness :
    ObjectCollection.attenuation
        (⟨[⟨fun _ _ => 2⟩, ⟨fun _ _ => 1⟩]⟩ : ObjectCollection) 0 0 =
      ObjectCollection.attenuation
        (⟨[⟨fun _ _ => 1⟩, ⟨fun _ _ => 2⟩]⟩ : ObjectCollection) 0 0 :=
  (collection_density_sum_perm
      (⟨[⟨fun _ _ => 1⟩, ⟨fun _ _ => 2⟩]⟩ : ObjectCollection) 0 0).2
    (⟨[⟨fun _ _ => 2⟩, ⟨fun _ _ => 1⟩]⟩ : ObjectCollection)
    (List.Perm.swap (⟨fun _ _ => 1⟩ : AttenuationObject)
      (⟨fun _ _ => 2⟩ : AttenuationObject) [])

/-- Claim C7 (counterexample): for the factor `f = 0` the claimed
equivalence fails: `Rectangle(0,1,0,1,0)` has `densityAt(5,5) = 0 = f`
although `(5,5)` lies outside the stored bounds. -/
theorem rectangle_density_iff_fails :
    ¬ (((Rectangle.make 0 1 0 1 0).attenuation 5 5 =
          (Rectangle.make 0 1 0 1 0).attenuation_factor) ↔
        ((Rectangle.make 0 1 0 1 0).x1 ≤ 5 ∧
          (5:ℝ) ≤ (Rectangle.make 0 1 0 1 0).x2 ∧
          (Rectangle.make 0 1 0 1 0).y1 ≤ 5 ∧
          (5:ℝ) ≤ (Rectangle.make 0 1 0 1 0).y2)) := by
  rw [Rectangle.attenuation_make]
  norm_num [Rectangle.make]

/-- Claim C7 (amended): for every `Rectangle` constructed from bounds
`(x1, x2, y1, y2)` and factor `f`, the stored bounds are the min/max
normalisation; `densityAt` equals `f` on the closed box (boundary included)
and `0` outside it; and whenever `f ≠ 0` the claimed equivalence
`densityAt(x,y) = f ↔ inside` does hold. -/
theorem rectangle_density_characterisation (x1 x2 y1 y2 f x y : ℝ) :
    ((Rectangle.make x1 x2 y1 y2 f).x1 = min x1 x2 ∧
     (Rectangle.make x1 x2 y1 y2 f).x2 = max x1 x2 ∧
     (Rectangle.make x1 x2 y1 y2 f).y1 = min y1 y2 ∧
     (Rectangle.make x1 x2 y1 y2 f).y2 = max y1 y2) ∧
    ((min x1 x2 ≤ x ∧ x ≤ max x1 x2 ∧ min y1 y2 ≤ y ∧ y ≤ max y1 y2) →
      (Rectangle.make x1 x2 y1 y2 f).attenuation x y = f) ∧
    (¬ (min x1 x2 ≤ x ∧ x ≤ max x1 x2 ∧ min y1 y2 ≤ y ∧ y ≤ max y1 y2) →
      (Rectangle.make x1 x2 y1 y2 f).attenuation x y = 0) ∧
    (f ≠ 0 →
      ((Rectangle.make x1 x2 y1 y2 f).attenuation x y = f ↔
        (min x1 x2 ≤ x ∧ x ≤ max x1 x2 ∧ min y1 y2 ≤ y ∧
          y ≤ max y1 y2))) := by
  refine ⟨⟨rfl, rfl, rfl, rfl⟩, ?_, ?_, ?_⟩
  · intro h
    rw [Rectangle.attenuation_make, if_pos h]
  · intro h
    rw [Rectangle.attenuation_make, if_neg h]
  · intro hf
    rw [Rectangle.attenuation_make]
    split_ifs with h
    · simp [h]
    · exact iff_of_false (fun hc => hf hc.symm) h

/-- Witness for `rectangle_density_characterisation`: the scenario
`Rectangle(-1, 0, -1, 0, 1)` from the repository driver, at an inside and
an outside point. -/
theorem rectangle_density_characterisation_witness :
    (Rectangle.make (-1) 0 (-1) 0 1).attenuation (-1/2) (-1/2) = 1 ∧
    (Rectangle.make (-1) 0 (-1) 0 1).attenuation (1/2) (1/2) = 0 := by
  constructor
  · exact (rectangle_density_characterisation (-1) 0 (-1) 0 1 (-1/2)
      (-1/2)).2.1 (by norm_num)
  · exact (rectangle_density_characterisation (-1) 0 (-1) 0 1 (1/2)
      (1/2)).2.2.1 (by norm_num)

/-- Claim C4 (counterexample): the public constructors accept a negative
attenuation factor, and then the density is negative: `Rectangle(0,1,0,1,-1)`
has `densityAt(1/2, 1/2) = -1 < 0`. -/
theorem shipped_density_nonneg_fails :
    ¬ (0 ≤ (Rectangle.make 0 1 0 1 (-1)).attenuation (1/2) (1/2)) := by
  rw [Rectangle.attenuation_make]
  norm_num

/-- Claim C4 (amended): for a nonnegative attenuation factor, the density
of a constructed `Rectangle` or `Circle` is nonnegative everywhere, and a
collection of pointwise-nonnegative members has nonnegative density
everywhere; with an arbitrary (possibly negative) factor the invariant does
not survive construction. -/
theorem shipped_density_nonneg (x y : ℝ) :
    (∀ x1 x2 y1 y2 f : ℝ, 0 ≤ f →
      0 ≤ (Rectangle.make x1 x2 y1 y2 f).attenuation x y) ∧
    (∀ x0 y0 r f : ℝ, 0 ≤ f →
      0 ≤ (Circle.make x0 y0 r f).attenuation x y) ∧
    (∀ c : ObjectCollection,
      (∀ o ∈ c.objects, ∀ a b : ℝ, 0 ≤ o.attenuation a b) →
      0 ≤ c.attenuation x y) := by
  refine ⟨?_, ?_, ?_⟩
  · intro x1 x2 y1 y2 f hf
    rw [Rectangle.attenuation_make]
    split_ifs with h
    · exact hf
    · exact le_rfl
  · intro x0 y0 r f hf
    unfold Circle.attenuation Circle.make
    split_ifs with h
    · exact hf
    · exact le_rfl
  · intro c hc
    rw [ObjectCollection.attenuation_eq_sum]
    refine List.sum_nonneg ?_
    intro v hv
    obtain ⟨o, ho, rfl⟩ := List.mem_map.mp hv
    exact hc o ho x y

/-- Witness for `shipped_density_nonneg` at concrete inputs. -/
theorem shipped_density_nonneg_witness :
    (0 : ℝ) ≤ 2 ∧
    0 ≤ (Rectangle.make 0 1 0 1 2).attenuation 0 0 ∧
    0 ≤ (Circle.make 0 0 1 2).attenuation 0 0 := by
  refine ⟨by norm_num, ?_, ?_⟩
  · exact (shipped_density_nonneg 0 0).1 0 1 0 1 2 (by norm_num)
  · exact (shipped_density_nonneg 0 0).2.1 0 0 1 2 (by norm_num)

end AttenuationLemmas

section ProjectionIntegralLemmas

/-- Claim C3 (counterexample): `project_attenuation` does not min/max
normalise a reversed `eta_range`.  For the rectangle `[-10,10]²` with
factor `1`, at `theta = 0`, `xi = 0`, the integrand is constantly `1` on
`[-2, 2]`, so the range `(-2, 2)` integrates to `4` while the reversed
range `(2, -2)` integrates to `-4`. -/
theorem reversed_eta_range_not_normalised :
    AttenuationObject.project_attenuation
        (Rectangle.make (-10) 10 (-10) 10 1).toObject 0 0 (2, -2) ≠
      AttenuationObject.project_attenuation
        (Rectangle.make (-10) 10 (-10) 10 1).toObject 0 0 (-2, 2) := by
  have hone : Set.EqOn
      (fun eta : ℝ => (Rectangle.make (-10) 10 (-10) 10 1).toObject.attenuation
        (0 * Real.cos 0 + eta * Real.sin 0)
        (eta * Real.cos 0 - 0 * Real.sin 0))
      (fun _ : ℝ => (1:ℝ)) (Set.uIcc (-2 : ℝ) 2) := by
    intro eta heta
    rw [Set.uIcc_of_le (by norm_num)] at heta
    have h1 : (-2:ℝ) ≤ eta := heta.1
    have h2 : eta ≤ 2 := heta.2
    show (Rectangle.make (-10) 10 (-10) 10 1).attenuation _ _ = 1
    rw [Real.cos_zero, Real.sin_zero, Rectangle.attenuation_make]
    have hx : (0:ℝ) * 1 + eta * 0 = 0 := by ring
    have hy : eta * 1 - 0 * 0 = eta := by ring
    rw [hx, hy, if_pos]
    refine ⟨by norm_num, by norm_num, ?_, ?_⟩
    · have hm : min (-10:ℝ) 10 = -10 := by norm_num
      rw [hm]
      linarith
    · have hm : max (-10:ℝ) 10 = 10 := by norm_num
      rw [hm]
      linarith
  have hint : AttenuationObject.project_attenuation
      (Rectangle.make (-10) 10 (-10) 10 1).toObject 0 0 ((-2:ℝ), 2) = 4 := by
    unfold AttenuationObject.project_attenuation
    rw [intervalIntegral.integral_congr hone, intervalIntegral.integral_const]
    norm_num
  have hsym : AttenuationObject.project_attenuation
      (Rectangle.make (-10) 10 (-10) 10 1).toObject 0 0 ((2:ℝ), -2) =
      - AttenuationObject.project_attenuation
        (Rectangle.make (-10) 10 (-10) 10 1).toObject 0 0 ((-2:ℝ), 2) :=
    intervalIntegral.integral_symm _ _
  rw [hsym, hint]
  norm_num

/-- Claim C3 (amended): for every source and every `eta_range = (a, b)`,
`project_attenuation` with the reversed range returns the **negation** of
the value with the min/max-normalised range — the oriented quadrature
`quad(f, a, b) = -quad(f, b, a)` — not the same value; no normalisation of
`eta_range` is performed. -/
theorem project_attenuation_reversed_negates (o : AttenuationObject)
    (theta xi a b : ℝ) :
    o.project_attenuation theta xi (a, b) =
      - o.project_attenuation theta xi (b, a) :=
  intervalIntegral.integral_symm b a

/-- Claim C1: the reconstruction routine modelled from the spec contract
(`back_project` in the source is unparseable) always yields a fully
populated square array of side `xi_steps`: the row count is `xi_steps` and
every row's length is `xi_steps`.  Each entry is the quadrature over
`theta ∈ [0, π]` of the clamped sinogram lookup, a well-defined real
number for every grid. -/
theorem back_project_square (p : Projection ℝ) :
    p.back_project.length = p.xi_steps.toNat ∧
    p.back_project.map List.length =
      List.replicate p.xi_steps.toNat p.xi_steps.toNat := by
  have h : ∀ row ∈ p.back_project, row.length = p.xi_steps.toNat := by
    intro row hrow
    simp only [Projection.back_project, List.mem_map] at hrow
    obtain ⟨y, -, rfl⟩ := hrow
    simp
  refine ⟨by simp [Projection.back_project], ?_⟩
  rw [map_length_eq_replicate _ _ h]
  simp [Projection.back_project]

end ProjectionIntegralLemmas

end CT
